import Mathlib

/-!
Shallow embedding of the `byline` Go library (src/byline.go): a line-by-line
streaming reader with a chain of per-line filter functions, AWK-style field
splitting, and bulk-collection helpers.

Modelling conventions:
* Go byte slices (`[]byte`) and Go strings are modelled as `List Nat` (one
  `Nat` per byte).  Go's `[]byte(string)` / `string([]byte)` conversions are
  byte-identical, so the `...String` variants of the API coincide with the
  byte variants in this model.
* Go `error` values relevant to the library are modelled by the inductive
  type `GoError`: the omit sentinel `ErrOmitLine`, the end-of-stream value
  `io.EOF`, and a family `other n` of pairwise-distinct hard errors.  Go
  compares these sentinels by identity, which matches decidable equality on
  the inductive type.
* The mutable `Reader` struct is modelled by explicit state passing: each
  filter function receives and returns the `AWKVars` record (Go filter
  closures can mutate `lr.awkVars`, e.g. `AWKMode` writes `NF`).
* `bufio.Scanner` drives `scanLinesWithNL` incrementally over a buffer.  With
  the whole remaining input available the split function is applied at
  `atEOF = true`; `tokenize` below is the resulting token stream, and the
  lemma `tokenize_eq_scan_step` checks it against the literal translation
  `scanLinesWithNL` of the Go split function.
-/

namespace Byline

/-- Go error values used by byline: the sentinel `ErrOmitLine`, `io.EOF`,
and arbitrary further distinct hard errors (`other n`). -/
inductive GoError where
  | omitLine : GoError
  | eof : GoError
  | other : Nat → GoError
deriving DecidableEq, Repr

/-- The AWK-style variables of the reader (`AWKVars` in byline.go).  `FS` is a
compiled regular expression in Go; in this model the field-splitting function
is passed to `awkFn` separately, so `AWKVars` carries the numeric fields `NR`,
`NF` and the record-separator byte `RS`. -/
structure AWKVars where
  NR : Nat
  NF : Nat
  RS : Nat
deriving DecidableEq, Repr

/-- The canonical filter-function shape: `func(line []byte) ([]byte, error)`,
with the reader's mutable `awkVars` made an explicit state argument (Go
filters are closures over the reader and may mutate it). -/
abbrev FilterFn := List Nat → AWKVars → List Nat × Option GoError × AWKVars

/-- `nullBytes` from byline.go: the empty byte slice. -/
def nullBytes : List Nat := []

/-- `Reader.MapErr`-built filter: a pure `line → (line, error)` function that
does not touch the reader state. -/
def mapErrFn (f : List Nat → List Nat × Option GoError) : FilterFn :=
  fun l v => ((f l).1, (f l).2, v)

/-- `Reader.Map`-built filter: wraps an infallible transform exactly as
`Map` wraps it into `MapErr` (returning a `nil` error). -/
def mapFn (f : List Nat → List Nat) : FilterFn :=
  mapErrFn (fun l => (f l, none))

/-- `Reader.Grep`-built filter: keep the line when the predicate holds,
otherwise return `nullBytes` with the `ErrOmitLine` sentinel. -/
def grepFn (p : List Nat → Bool) : FilterFn :=
  mapErrFn (fun l => if p l then (l, none) else (nullBytes, some GoError.omitLine))

/-- `Reader.scanLinesWithNL`, literally: given the buffered `data` and the
`atEOF` flag, return `(advance, token?)` where `token? = none` models the Go
returns `(0, nil, nil)` (stop at EOF, or request more data).  `bytes.IndexByte`
is `List.findIdx?`. -/
def scanLinesWithNL (rs : Nat) (data : List Nat) (atEOF : Bool) :
    Nat × Option (List Nat) :=
  if atEOF && data.isEmpty then (0, none)
  else
    match data.findIdx? (· = rs) with
    | some i => (i + 1, some (data.take (i + 1)))
    | none => if atEOF then (data.length, some data) else (0, none)

/-- The token stream the scanner produces from a full input: maximal
separator-terminated prefixes, then the final unterminated fragment (if
non-empty).  This is the structural fixpoint of `scanLinesWithNL`; the lemma
`tokenize_eq_scan_step` below relates the two. -/
def tokenize (rs : Nat) : List Nat → List (List Nat)
  | [] => []
  | b :: l =>
    if b = rs then [rs] :: tokenize rs l
    else
      match tokenize rs l with
      | [] => [[b]]
      | t :: ts => (b :: t) :: ts

example : tokenize 10 [102, 111, 111, 10, 98, 97, 114] =
    [[102, 111, 111, 10], [98, 97, 114]] := by decide

example : tokenize 10 [] = [] := by decide

example : tokenize 10 [10] = [[10]] := by decide

/-- `tokenize` never produces an empty token list from non-empty input. -/
theorem tokenize_ne_nil (rs : Nat) (b : Nat) (l : List Nat) :
    tokenize rs (b :: l) ≠ [] := by
  unfold tokenize
  by_cases h : b = rs
  · simp [h]
  · simp only [if_neg h]
    cases tokenize rs l <;> simp

/-- At end-of-stream on empty data the scanner stops (Go returns
`(0, nil, nil)`), and `tokenize` produces no token. -/
theorem scan_step_nil (rs : Nat) :
    scanLinesWithNL rs [] true = (0, none) ∧ tokenize rs [] = [] :=
  ⟨rfl, rfl⟩

/-- One step of the scanner at end-of-stream agrees with `tokenize` on
non-empty data: the split function delivers a token, that token is the head
of the token stream, and the data left after `advance` bytes tokenizes to the
tail. -/
theorem tokenize_eq_scan_step (rs : Nat) (l : List Nat) (hl : l ≠ []) :
    ∃ adv tok, scanLinesWithNL rs l true = (adv, some tok) ∧
      tokenize rs l = tok :: tokenize rs (l.drop adv) := by
  induction l with
  | nil => exact absurd rfl hl
  | cons b l ih =>
    by_cases hb : b = rs
    · subst hb
      refine ⟨1, [b], ?_, ?_⟩
      · simp [scanLinesWithNL]
      · simp [tokenize]
    · by_cases hl' : l = []
      · subst hl'
        refine ⟨1, [b], ?_, ?_⟩
        · simp [scanLinesWithNL, hb]
        · simp [tokenize, hb]
      · obtain ⟨adv, tok, hscan, htok⟩ := ih hl'
        rw [scanLinesWithNL] at hscan
        simp only [List.isEmpty_eq_true, hl', if_neg, Bool.true_and,
          Bool.and_eq_true, and_false, Bool.false_eq_true, if_false] at hscan
        match hf : l.findIdx? (· = rs) with
        | some i =>
          rw [hf] at hscan
          have hadv : adv = i + 1 := by
            have := congrArg Prod.fst hscan
            simpa using this.symm
          have htokv : tok = l.take (i + 1) := by
            have := congrArg Prod.snd hscan
            simpa using this.symm
          refine ⟨i + 2, b :: tok, ?_, ?_⟩
          · simp [scanLinesWithNL, List.findIdx?_succ, hf, hb, htokv]
          · rw [tokenize]
            simp only [if_neg hb]
            rw [htok]
            rw [hadv]
            rfl
        | none =>
          rw [hf] at hscan
          simp only [if_pos rfl] at hscan
          have hadv : adv = l.length := by
            have := congrArg Prod.fst hscan
            simpa using this.symm
          have htokv : tok = l := by
            have := congrArg Prod.snd hscan
            simpa using this.symm
          refine ⟨l.length + 1, b :: l, ?_, ?_⟩
          · simp [scanLinesWithNL, List.findIdx?_succ, hf, hb]
          · rw [tokenize]
            simp only [if_neg hb]
            rw [htok, htokv, hadv]
            simp [List.drop_length, tokenize]

/-- Go's regexp `\s` character class: `[\t\n\f\r ]`. -/
def isWS (b : Nat) : Bool :=
  b = 9 || b = 10 || b = 12 || b = 13 || b = 32

/-- `regexp.MustCompile(` + backslash + `s+).Split(line, -1)` (the default
field separator `defaultFS` of byline): split on maximal runs of whitespace
bytes, keeping empty pieces at the boundaries; the empty input yields one
empty piece.  Written as a structural recursion: a whitespace byte followed
by more whitespace extends the current separator run, a whitespace byte
followed by non-whitespace (or end) closes a piece, and a non-whitespace byte
extends the head piece. -/
def splitWS : List Nat → List (List Nat)
  | [] => [[]]
  | b :: l =>
    if isWS b then
      match l with
      | [] => [[], []]
      | c :: _ => if isWS c then splitWS l else [] :: splitWS l
    else
      match splitWS l with
      | [] => [[b]]
      | t :: ts => (b :: t) :: ts

example : splitWS [97, 32, 98, 32, 32, 99] = [[97], [98], [99]] := by decide

example : splitWS [] = [[]] := by decide

example : splitWS [32, 97, 32] = [[], [97], []] := by decide

/-- `strings.TrimSuffix(line, string(RS))` for a present suffix:
the separator-stripped content of a record. -/
def stripRS (rs : Nat) (l : List Nat) : List Nat :=
  if l.getLast? = some rs then l.dropLast else l

/-- The `AWKMode` user callback: `func(line string, fields []string,
vars AWKVars) (string, error)`. -/
abbrev AWKCallback :=
  List Nat → List (List Nat) → AWKVars → List Nat × Option GoError

/-- `Reader.AWKMode`'s filter (the closure passed to `MapStringErr`): strip a
trailing record separator if present (remembering that it was there), split
the stripped line into fields with the field-separator pattern, store the
field count in `NF`, call the user callback, and on success re-append the
separator when the original line had one and the result does not.  On a
callback error the Go code returns `("", err)`; `MapStringErr` converts that
to the empty byte slice plus the error. -/
def awkFn (split : List Nat → List (List Nat)) (cb : AWKCallback) : FilterFn :=
  fun l v =>
    let addRS := l.getLast? == some v.RS
    let line := stripRS v.RS l
    let fields := split line
    let v' := { v with NF := fields.length }
    match cb line fields v' with
    | (_, some e) => ([], some e, v')
    | (result, none) =>
      (if !(result.getLast? == some v.RS) && addRS then result ++ [v.RS]
       else result, none, v')

/-- The `Reader` struct: the scanner is represented by its token stream
(`tokenize` applied to the underlying input), plus the filter chain and the
AWK variables. -/
structure Reader where
  tokens : List (List Nat)
  filterFuncs : List FilterFn
  awkVars : AWKVars

/-- `NewReader`: wrap an input byte stream, with default record separator
`'\n'` (byte 10), empty filter chain, and `NR = 0`. -/
def newReader (input : List Nat) : Reader :=
  { tokens := tokenize 10 input, filterFuncs := [], awkVars := ⟨0, 0, 10⟩ }

/-- The filter loop inside `Reader.Read`: apply each filter in order to the
current line, stopping at the first non-nil error (the Go loop `break`s, so
later filters never run on this line). -/
def applyFilters : List FilterFn → List Nat → AWKVars → List Nat × Option GoError × AWKVars
  | [], l, v => (l, none, v)
  | f :: fs, l, v =>
    match f l v with
    | (l', none, v') => applyFilters fs l' v'
    | (l', some e, v') => (l', some e, v')

/-- `Reader.Read(p)` with `p` of capacity `cap`: scan the next token (if none
is left the scanner has no error for an in-memory source, so the result is
`io.EOF` with `nullBytes`); otherwise increment `NR`, run the filter chain,
convert `ErrOmitLine` into `nullBytes` with a nil error, `copy(p, lineBytes)`
(which writes at most `cap` bytes), and return `len(lineBytes)`.  The result
is `((n, bytesWrittenIntoP, err), updatedReader)`. -/
def read (r : Reader) (cap : Nat) : (Nat × List Nat × Option GoError) × Reader :=
  match r.tokens with
  | [] => ((0, [], some GoError.eof), r)
  | t :: rest =>
    let v1 := { r.awkVars with NR := r.awkVars.NR + 1 }
    match applyFilters r.filterFuncs t v1 with
    | (l', none, v2) =>
      ((l'.length, l'.take cap, none), { r with tokens := rest, awkVars := v2 })
    | (_, some GoError.omitLine, v2) =>
      ((0, [], none), { r with tokens := rest, awkVars := v2 })
    | (l', some GoError.eof, v2) =>
      ((l'.length, l'.take cap, some GoError.eof),
       { r with tokens := rest, awkVars := v2 })
    | (l', some (GoError.other m), v2) =>
      ((l'.length, l'.take cap, some (GoError.other m)),
       { r with tokens := rest, awkVars := v2 })

/-- The loop of `io.Copy(ioutil.Discard, lr)` driving `read`: keep reading;
a nil error continues, `io.EOF` ends the copy with a nil error, and any other
error is returned.  Returns the error together with the final scanner/state
position. -/
def discardAux (fs : List FilterFn) :
    List (List Nat) → AWKVars → Option GoError × List (List Nat) × AWKVars
  | [], v => (none, [], v)
  | t :: rest, v =>
    let v1 := { v with NR := v.NR + 1 }
    match applyFilters fs t v1 with
    | (_, none, v2) => discardAux fs rest v2
    | (_, some GoError.omitLine, v2) => discardAux fs rest v2
    | (_, some GoError.eof, v2) => (none, rest, v2)
    | (_, some (GoError.other m), v2) => (some (GoError.other m), rest, v2)

/-- `Reader.Discard`: drain the whole reader, discarding output. -/
def discard (r : Reader) : Option GoError × Reader :=
  match discardAux r.filterFuncs r.tokens r.awkVars with
  | (e, tl, vf) => (e, { r with tokens := tl, awkVars := vf })

/-- The pure shape of the collecting filter `ReadAllSlice` appends via `Map`:
it returns `nullBytes` for every line (its side effect — appending the line
to the result slice — is modelled by the first component of `readAllAux`). -/
def collectFn : FilterFn :=
  mapFn (fun _ => nullBytes)

/-- The pure shape of the collecting filter `ReadAllSliceString` appends via
`MapString`: it returns `""` for every line. -/
def collectStrFn : FilterFn :=
  mapFn (fun _ => nullBytes)

/-- The drain-and-collect loop shared by `ReadAllSlice` and
`ReadAllSliceString`: the appended collector receives exactly the lines for
which the original chain `fs` finished without error, records them, and the
drain otherwise behaves like `discardAux` (the lemma
`readAllAux_eq_discardAux` makes this precise).  Returns
`(collected, error, remaining tokens, final vars)`. -/
def readAllAux (fs : List FilterFn) :
    List (List Nat) → AWKVars →
      List (List Nat) × Option GoError × List (List Nat) × AWKVars
  | [], v => ([], none, [], v)
  | t :: rest, v =>
    let v1 := { v with NR := v.NR + 1 }
    match applyFilters fs t v1 with
    | (l', none, v2) =>
      match readAllAux fs rest v2 with
      | (acc, e, tl, vf) => (l' :: acc, e, tl, vf)
    | (_, some GoError.omitLine, v2) => readAllAux fs rest v2
    | (_, some GoError.eof, v2) => ([], none, rest, v2)
    | (_, some (GoError.other m), v2) => ([], some (GoError.other m), rest, v2)

/-- `Reader.ReadAllSlice`: append the collecting filter via `Map`, then
`Discard`; the collector stays in the chain afterwards. -/
def readAllSlice (r : Reader) : (List (List Nat) × Option GoError) × Reader :=
  match readAllAux r.filterFuncs r.tokens r.awkVars with
  | (acc, e, tl, vf) =>
    ((acc, e),
     { tokens := tl, filterFuncs := r.filterFuncs ++ [collectFn], awkVars := vf })

/-- `Reader.ReadAllSliceString`: append the collecting filter via
`MapString`, then `Discard`; the collector stays in the chain afterwards. -/
def readAllSliceString (r : Reader) : (List (List Nat) × Option GoError) × Reader :=
  match readAllAux r.filterFuncs r.tokens r.awkVars with
  | (acc, e, tl, vf) =>
    ((acc, e),
     { tokens := tl, filterFuncs := r.filterFuncs ++ [collectStrFn], awkVars := vf })

/-- ASCII string literals as byte lists. -/
def toBytes (s : String) : List Nat :=
  s.data.map Char.toNat

example : toBytes "foo\nbar\nbaz" =
    [102, 111, 111, 10, 98, 97, 114, 10, 98, 97, 122] := by decide

/-- `Reader.MapErr`: append a canonical filter function to the chain
(builder pattern; the Go method returns the same mutated reader). -/
def mapErr (r : Reader) (f : List Nat → List Nat × Option GoError) : Reader :=
  { r with filterFuncs := r.filterFuncs ++ [mapErrFn f] }

/-- `Reader.Map`: wrap an infallible transform and delegate to `MapErr`. -/
def map (r : Reader) (f : List Nat → List Nat) : Reader :=
  mapErr r (fun l => (f l, none))

/-- `Reader.Grep` (and, as Go strings are byte sequences, `GrepString`):
keep lines satisfying the predicate, omit the rest. -/
def grep (r : Reader) (p : List Nat → Bool) : Reader :=
  mapErr r (fun l => if p l then (l, none) else (nullBytes, some GoError.omitLine))

/-- `Reader.AWKMode`: append the AWK filter. -/
def awkMode (r : Reader) (split : List Nat → List (List Nat))
    (cb : AWKCallback) : Reader :=
  { r with filterFuncs := r.filterFuncs ++ [awkFn split cb] }

/-! ### Glue lemmas -/

/-- Splitting the filter loop at a chain concatenation: the second part runs
only if the first part finished without error. -/
theorem applyFilters_append (fs1 fs2 : List FilterFn) (l : List Nat) (v : AWKVars) :
    applyFilters (fs1 ++ fs2) l v =
      match applyFilters fs1 l v with
      | (l1, none, v1) => applyFilters fs2 l1 v1
      | (l1, some e, v1) => (l1, some e, v1) := by
  induction fs1 generalizing l v with
  | nil => rfl
  | cons f fs ih =>
    show applyFilters (f :: (fs ++ fs2)) l v = _
    rw [applyFilters]
    conv_rhs => rw [applyFilters]
    rcases hf : f l v with ⟨l', e, v'⟩
    cases e with
    | none => exact ih l' v'
    | some e => rfl

/-- An omitting filter short-circuits the loop: whatever follows it in the
chain is never applied, and the loop delivers `nullBytes` with the
`ErrOmitLine` sentinel. -/
theorem applyFilters_omit (p : List Nat → Bool) (fs : List FilterFn)
    (l : List Nat) (v : AWKVars) (hp : p l = false) :
    applyFilters (grepFn p :: fs) l v = (nullBytes, some GoError.omitLine, v) := by
  rw [applyFilters]
  simp [grepFn, mapErrFn, hp]

/-- `ReadAllSlice`/`ReadAllSliceString` really are `Discard` over the chain
with the collector appended: the collecting drain `readAllAux` agrees with
`discardAux` on error, remaining tokens and final state. -/
theorem readAllAux_eq_discardAux (fs : List FilterFn) (tokens : List (List Nat))
    (v : AWKVars) :
    discardAux (fs ++ [collectFn]) tokens v = (readAllAux fs tokens v).2 := by
  induction tokens generalizing v with
  | nil => rfl
  | cons t rest ih =>
    rw [discardAux, readAllAux]
    rw [applyFilters_append]
    rcases hf : applyFilters fs t { v with NR := v.NR + 1 } with ⟨l', e, v2⟩
    cases e with
    | none =>
      show discardAux (fs ++ [collectFn]) rest v2 = _
      rw [ih]
    | some e => cases e <;> first | exact ih v2 | rfl

/-- `tokenize` yields no tokens only on the empty input. -/
theorem tokenize_eq_nil_iff (rs : Nat) (l : List Nat) :
    tokenize rs l = [] ↔ l = [] := by
  cases l with
  | nil => simp [tokenize]
  | cons b l => simpa using tokenize_ne_nil rs b l

/-- Unfolding equation of `tokenize` at a separator byte. -/
theorem tokenize_cons_sep (rs : Nat) (l : List Nat) :
    tokenize rs (rs :: l) = [rs] :: tokenize rs l := by
  rw [tokenize]
  simp

/-- Unfolding equation of `tokenize` at a non-separator byte. -/
theorem tokenize_cons_of_ne (rs b : Nat) (l : List Nat) (hb : b ≠ rs) :
    tokenize rs (b :: l) =
      match tokenize rs l with
      | [] => [[b]]
      | t :: ts => (b :: t) :: ts := by
  rw [tokenize]
  simp [hb]

/-- Token count: one token per separator occurrence, plus one more exactly
when the final fragment (the part after the last separator) is non-empty,
i.e. when the input is non-empty and does not end in the separator. -/
theorem tokenize_length (rs : Nat) (l : List Nat) :
    (tokenize rs l).length =
      l.count rs + (if l.getLast? = some rs ∨ l = [] then 0 else 1) := by
  induction l with
  | nil => simp [tokenize]
  | cons b l ih =>
    by_cases hb : b = rs
    · subst hb
      rw [tokenize_cons_sep]
      cases l with
      | nil => simp [tokenize]
      | cons c l' =>
        have hcne : (c :: l' : List Nat) ≠ [] := List.cons_ne_nil _ _
        simp only [List.length_cons, ih, List.count_cons, List.getLast?_cons_cons,
          beq_self_eq_true, if_true, hcne, or_false, List.cons_ne_nil,
          not_false_eq_true]
        by_cases hlast : (c :: l').getLast? = some b
        · simp [hlast]
          try omega
        · simp [hlast]
          try omega
    · rw [tokenize_cons_of_ne rs b l hb]
      cases htl : tokenize rs l with
      | nil =>
        have hl : l = [] := (tokenize_eq_nil_iff rs l).mp htl
        subst hl
        simp [List.count_cons, hb, Ne.symm hb]
      | cons t ts =>
        have hlne : l ≠ [] := by
          intro h
          subst h
          simp [tokenize] at htl
        have h1 : ((b :: t) :: ts).length = (tokenize rs l).length := by
          rw [htl]
          simp
        have hcount : (b :: l).count rs = l.count rs := by
          simp [List.count_cons, hb]
        have hlast : (b :: l).getLast? = l.getLast? := by
          cases l with
          | nil => exact absurd rfl hlne
          | cons c l' => exact List.getLast?_cons_cons
        show ((b :: t) :: ts).length = _
        rw [h1, ih, hcount, hlast]
        simp [hlne]

/-- No byte is lost or altered by tokenization: the tokens concatenate back
to the input (in particular, trailing separators stay attached to their
records). -/
theorem tokenize_join (rs : Nat) (l : List Nat) :
    (tokenize rs l).flatten = l := by
  induction l with
  | nil => rfl
  | cons b l ih =>
    by_cases hb : b = rs
    · subst hb
      rw [tokenize_cons_sep]
      simp [ih]
    · rw [tokenize_cons_of_ne rs b l hb]
      cases htl : tokenize rs l with
      | nil =>
        have hl : l = [] := (tokenize_eq_nil_iff rs l).mp htl
        subst hl
        rfl
      | cons t ts =>
        rw [htl] at ih
        simpa using ih

/-- Every token except possibly the last ends in the separator byte. -/
theorem tokenize_dropLast_getLast (rs : Nat) (l : List Nat) :
    ∀ t ∈ (tokenize rs l).dropLast, t.getLast? = some rs := by
  induction l with
  | nil => intro t ht; simp [tokenize] at ht
  | cons b l ih =>
    by_cases hb : b = rs
    · subst hb
      rw [tokenize_cons_sep]
      cases htl : tokenize b l with
      | nil => intro t ht; simp at ht
      | cons u us =>
        rw [htl] at ih
        intro t ht
        rw [List.dropLast_cons_of_ne_nil (List.cons_ne_nil u us)] at ht
        rcases List.mem_cons.mp ht with h | h
        · subst h; rfl
        · exact ih t h
    · rw [tokenize_cons_of_ne rs b l hb]
      cases htl : tokenize rs l with
      | nil => intro t ht; simp at ht
      | cons u us =>
        rw [htl] at ih
        cases us with
        | nil => intro t ht; simp at ht
        | cons w ws =>
          intro t ht
          have hred : (match u :: w :: ws with
              | [] => ([[b]] : List (List Nat))
              | t :: ts => (b :: t) :: ts) = (b :: u) :: w :: ws := rfl
          rw [hred] at ht
          rw [List.dropLast_cons_of_ne_nil (List.cons_ne_nil w ws)] at ht
          rcases List.mem_cons.mp ht with h | h
          · subst h
            have hu : u.getLast? = some rs := by
              apply ih
              rw [List.dropLast_cons_of_ne_nil (List.cons_ne_nil w ws)]
              exact List.mem_cons_self u _
            cases u with
            | nil => simp at hu
            | cons x xs => rw [List.getLast?_cons_cons]; exact hu
          · apply ih
            rw [List.dropLast_cons_of_ne_nil (List.cons_ne_nil w ws)]
            exact List.mem_cons_of_mem u h

/-- A chain of `Map`-built filters never errors and never touches the
reader state. -/
theorem applyFilters_all_maps (fs1 : List FilterFn)
    (h : ∀ f ∈ fs1, ∃ g, f = mapFn g) (l : List Nat) (v : AWKVars) :
    ∃ l1, applyFilters fs1 l v = (l1, none, v) := by
  induction fs1 generalizing l with
  | nil => exact ⟨l, rfl⟩
  | cons f fs ih =>
    obtain ⟨g, hg⟩ := h f (List.mem_cons_self f fs)
    have hrest : ∀ f ∈ fs, ∃ g, f = mapFn g :=
      fun f hf => h f (List.mem_cons_of_mem _ hf)
    obtain ⟨l1, h1⟩ := ih hrest (g l)
    refine ⟨l1, ?_⟩
    rw [applyFilters, hg]
    dsimp only [mapFn, mapErrFn]
    exact h1

/-- Draining a chain that contains an always-false predicate filter (behind
any prefix of plain `Map` transforms) collects nothing and ends cleanly. -/
theorem readAllAux_omit_all (fs1 fs2 : List FilterFn)
    (h : ∀ f ∈ fs1, ∃ g, f = mapFn g) (tokens : List (List Nat)) (v : AWKVars) :
    (readAllAux (fs1 ++ grepFn (fun _ => false) :: fs2) tokens v).1 = [] ∧
      (readAllAux (fs1 ++ grepFn (fun _ => false) :: fs2) tokens v).2.1 = none := by
  induction tokens generalizing v with
  | nil => exact ⟨rfl, rfl⟩
  | cons t rest ih =>
    rw [readAllAux]
    dsimp only
    obtain ⟨l1, h1⟩ := applyFilters_all_maps fs1 h t { v with NR := v.NR + 1 }
    rw [applyFilters_append, h1]
    dsimp only
    rw [applyFilters_omit _ fs2 l1 _ rfl]
    exact ih _

/-! ### Claim theorems -/

/-- C1 (counterexample): a filter chain in which a filter returns a hard
error does NOT always yield an empty record at the pull boundary: a `MapErr`
filter that returns the bytes `[7, 8]` together with a hard error makes
`Read` deliver those bytes (length 2, not 0) alongside the error. -/
theorem c1_hard_error_record_not_empty :
    ((read (mapErr (newReader [1]) (fun _ => ([7, 8], some (GoError.other 0)))) 10).1.2.2
        = some (GoError.other 0)) ∧
      (read (mapErr (newReader [1]) (fun _ => ([7, 8], some (GoError.other 0)))) 10).1.2.1
        ≠ nullBytes := by
  decide

/-- C1 (amended): if a filter in the chain returns a hard error (any error
other than `ErrOmitLine`), processing of the record stops at that filter (the
filters after it are never applied — the conclusion does not depend on
`fs2`), and the pull boundary yields the bytes returned by the failing filter
(not necessarily empty) together with that error. -/
theorem c1_hard_error_stops_chain (fs1 fs2 : List FilterFn) (f : FilterFn)
    (t l1 l' : List Nat) (rest : List (List Nat)) (v v1 v' : AWKVars)
    (cap : Nat) (e : GoError)
    (happ : applyFilters fs1 t { v with NR := v.NR + 1 } = (l1, none, v1))
    (hf : f l1 v1 = (l', some e, v'))
    (he : e ≠ GoError.omitLine) :
    (read ⟨t :: rest, fs1 ++ f :: fs2, v⟩ cap).1 =
      (l'.length, l'.take cap, some e) := by
  rw [read]
  show (match applyFilters (fs1 ++ f :: fs2) t _ with
    | (l', none, v2) => ((l'.length, l'.take cap, none),
        ({ tokens := rest, filterFuncs := fs1 ++ f :: fs2, awkVars := v2 } : Reader))
    | (_, some GoError.omitLine, v2) => ((0, [], none),
        ({ tokens := rest, filterFuncs := fs1 ++ f :: fs2, awkVars := v2 } : Reader))
    | (l', some GoError.eof, v2) => ((l'.length, l'.take cap, some GoError.eof),
        ({ tokens := rest, filterFuncs := fs1 ++ f :: fs2, awkVars := v2 } : Reader))
    | (l', some (GoError.other m), v2) =>
        ((l'.length, l'.take cap, some (GoError.other m)),
         ({ tokens := rest, filterFuncs := fs1 ++ f :: fs2, awkVars := v2 } : Reader))).1
    = (l'.length, l'.take cap, some e)
  rw [applyFilters_append, happ]
  show (match applyFilters (f :: fs2) l1 v1 with
    | (l', none, v2) => ((l'.length, l'.take cap, none),
        ({ tokens := rest, filterFuncs := fs1 ++ f :: fs2, awkVars := v2 } : Reader))
    | (_, some GoError.omitLine, v2) => ((0, [], none),
        ({ tokens := rest, filterFuncs := fs1 ++ f :: fs2, awkVars := v2 } : Reader))
    | (l', some GoError.eof, v2) => ((l'.length, l'.take cap, some GoError.eof),
        ({ tokens := rest, filterFuncs := fs1 ++ f :: fs2, awkVars := v2 } : Reader))
    | (l', some (GoError.other m), v2) =>
        ((l'.length, l'.take cap, some (GoError.other m)),
         ({ tokens := rest, filterFuncs := fs1 ++ f :: fs2, awkVars := v2 } : Reader))).1
    = (l'.length, l'.take cap, some e)
  rw [applyFilters, hf]
  cases e with
  | omitLine => exact absurd rfl he
  | eof => rfl
  | other m => rfl

/-- C1 witness: the amended statement at a concrete input (one record `[1]`,
a failing filter returning `([7, 8], other 0)`, a further filter after it). -/
theorem c1_hard_error_stops_chain_witness :
    (read ⟨[[1]],
        [] ++ mapErrFn (fun _ => ([7, 8], some (GoError.other 0))) ::
          [mapFn (fun l => l ++ l)], ⟨0, 0, 10⟩⟩ 5).1 =
      (2, [7, 8], some (GoError.other 0)) :=
  c1_hard_error_stops_chain [] [mapFn (fun l => l ++ l)]
    (mapErrFn (fun _ => ([7, 8], some (GoError.other 0))))
    [1] [1] [7, 8] [] ⟨0, 0, 10⟩ ⟨1, 0, 10⟩ ⟨1, 0, 10⟩ 5 (GoError.other 0)
    rfl rfl (by decide)

/-- C2 (code bug): `Read` copies at most `cap` bytes into the caller's buffer
(first conjunct), but the integer it returns is the full record length, not
the number of bytes written: on the single 4-byte record `[1, 2, 3, 4]` with
a 2-byte buffer it writes `[1, 2]` (2 bytes) yet returns 4, contradicting the
io.Reader contract the method claims to implement. -/
theorem c2_read_returns_record_length :
    (∀ (r : Reader) (cap : Nat), ((read r cap).1.2.1).length ≤ cap) ∧
      (read (newReader [1, 2, 3, 4]) 2).1.1 = 4 ∧
      (read (newReader [1, 2, 3, 4]) 2).1.2.1 = [1, 2] ∧
      (read (newReader [1, 2, 3, 4]) 2).1.1 ≠
        ((read (newReader [1, 2, 3, 4]) 2).1.2.1).length := by
  refine ⟨?_, by decide, by decide, by decide⟩
  intro r cap
  rcases r with ⟨tokens, fs, v⟩
  cases tokens with
  | nil => simp [read]
  | cons t rest =>
    rw [read]
    dsimp only
    rcases h : applyFilters fs t { v with NR := v.NR + 1 } with ⟨l', e, v2⟩
    cases e with
    | none => simp
    | some g =>
      cases g with
      | omitLine => simp
      | eof => simp
      | other m => simp

/-- C3: the tokenizer yields `count of separator bytes` records, plus one
more exactly when the final fragment (the input is non-empty and does not
end in the separator byte) is non-empty; the empty input yields no records;
and the pipeline over `"foo\nbar\nbaz"` collected as a string slice yields
`["foo\n", "bar\n", "baz"]`. -/
theorem c3_tokenizer_record_count :
    (∀ rs l, (tokenize rs l).length =
        l.count rs + (if l.getLast? = some rs ∨ l = [] then 0 else 1)) ∧
      tokenize 10 [] = [] ∧
      (readAllSliceString (newReader (toBytes ("foo\nbar\nbaz")))).1 =
        ([toBytes ("foo\n"), toBytes ("bar\n"), toBytes ("baz")], none) :=
  ⟨tokenize_length, rfl, by decide⟩

/-- C4: when a filter signals omit (here a predicate filter whose predicate
rejects the line), the rest of the chain is not applied (the result does not
depend on `fs2`), the pull yields the empty record with a `nil` error and
moves on to the next record, and a chain containing an always-false
predicate filter (behind any prefix of `Map` transforms) collects zero
records from any non-empty input. -/
theorem c4_omit_short_circuits :
    (∀ (p : List Nat → Bool) (fs2 : List FilterFn) (l : List Nat) (v : AWKVars),
        p l = false →
        applyFilters (grepFn p :: fs2) l v = (nullBytes, some GoError.omitLine, v)) ∧
      (∀ (p : List Nat → Bool) (fs2 : List FilterFn) (t : List Nat)
          (rest : List (List Nat)) (v : AWKVars) (cap : Nat),
          p t = false →
          (read ⟨t :: rest, grepFn p :: fs2, v⟩ cap).1 = (0, [], none) ∧
            (read ⟨t :: rest, grepFn p :: fs2, v⟩ cap).2.tokens = rest) ∧
      (∀ (input : List Nat) (fs1 fs2 : List FilterFn),
          input ≠ [] →
          (∀ f ∈ fs1, ∃ g, f = mapFn g) →
          (readAllSlice ⟨tokenize 10 input,
              fs1 ++ grepFn (fun _ => false) :: fs2, ⟨0, 0, 10⟩⟩).1 = ([], none)) := by
  refine ⟨applyFilters_omit, ?_, ?_⟩
  · intro p fs2 t rest v cap hp
    rw [read]
    dsimp only
    rw [applyFilters_omit p fs2 t _ hp]
    exact ⟨rfl, rfl⟩
  · intro input fs1 fs2 _ hmaps
    have h := readAllAux_omit_all fs1 fs2 hmaps (tokenize 10 input) ⟨0, 0, 10⟩
    rw [readAllSlice]
    rcases hra : readAllAux (fs1 ++ grepFn (fun _ => false) :: fs2)
        (tokenize 10 input) ⟨0, 0, 10⟩ with ⟨acc, e, tl, vf⟩
    rw [hra] at h
    simpa using h

/-- C4 witness: the three parts at concrete inputs — an always-false
predicate on line `[97, 10]` with a further filter behind it, a concrete
pulled record, and the non-empty input `"foo\nbar"` behind one `Map`. -/
theorem c4_omit_short_circuits_witness :
    (applyFilters (grepFn (fun _ => false) :: [mapFn (fun l => l ++ l)])
        [97, 10] ⟨1, 0, 10⟩ = (nullBytes, some GoError.omitLine, ⟨1, 0, 10⟩)) ∧
      ((read ⟨[[97, 10]], grepFn (fun _ => false) :: [], ⟨0, 0, 10⟩⟩ 5).1
        = (0, [], none)) ∧
      (readAllSlice ⟨tokenize 10 (toBytes ("foo\nbar")),
          [mapFn (fun l => l ++ l)] ++ grepFn (fun _ => false) :: [],
          ⟨0, 0, 10⟩⟩).1 = ([], none) :=
  ⟨c4_omit_short_circuits.1 (fun _ => false) [mapFn (fun l => l ++ l)]
      [97, 10] ⟨1, 0, 10⟩ rfl,
    (c4_omit_short_circuits.2.1 (fun _ => false) [] [97, 10] [] ⟨0, 0, 10⟩ 5 rfl).1,
    c4_omit_short_circuits.2.2 (toBytes ("foo\nbar"))
      [mapFn (fun l => l ++ l)] [] (by decide)
      (by intro f hf
          simp only [List.mem_singleton] at hf
          exact ⟨fun l => l ++ l, hf⟩)⟩

/-- C5: a filter that returns the end-of-stream sentinel `io.EOF` makes the
pull report end-of-stream immediately (whatever filters `fs2` still follow in
the chain), and the bulk drains — `Discard` and the collector built on it —
terminate cleanly with a `nil` error. -/
theorem c5_callback_eof_ends_stream (f : FilterFn) (fs2 : List FilterFn)
    (t l' : List Nat) (rest : List (List Nat)) (v v' : AWKVars) (cap : Nat)
    (hf : f t { v with NR := v.NR + 1 } = (l', some GoError.eof, v')) :
    (read ⟨t :: rest, f :: fs2, v⟩ cap).1.2.2 = some GoError.eof ∧
      (discard ⟨t :: rest, f :: fs2, v⟩).1 = none ∧
      (readAllSlice ⟨t :: rest, f :: fs2, v⟩).1 = ([], none) := by
  refine ⟨?_, ?_, ?_⟩
  · rw [read]
    dsimp only
    rw [applyFilters, hf]
  · rw [discard]
    try dsimp only
    rw [discardAux]
    try dsimp only
    rw [applyFilters, hf]
  · rw [readAllSlice]
    try dsimp only
    rw [readAllAux]
    try dsimp only
    rw [applyFilters, hf]

/-- C5 witness: a `MapErr` filter returning `io.EOF` on the first of two
records, with a further filter after it in the chain. -/
theorem c5_callback_eof_ends_stream_witness :
    (read ⟨[[97, 10], [98]], mapErrFn (fun l => (l, some GoError.eof)) ::
        [mapFn (fun l => l ++ l)], ⟨0, 0, 10⟩⟩ 5).1.2.2 = some GoError.eof ∧
      (discard ⟨[[97, 10], [98]], mapErrFn (fun l => (l, some GoError.eof)) ::
          [mapFn (fun l => l ++ l)], ⟨0, 0, 10⟩⟩).1 = none ∧
      (readAllSlice ⟨[[97, 10], [98]], mapErrFn (fun l => (l, some GoError.eof)) ::
          [mapFn (fun l => l ++ l)], ⟨0, 0, 10⟩⟩).1 = ([], none) :=
  c5_callback_eof_ends_stream (mapErrFn (fun l => (l, some GoError.eof)))
    [mapFn (fun l => l ++ l)] [97, 10] [97, 10] [[98]]
    ⟨0, 0, 10⟩ ⟨1, 0, 10⟩ 5 rfl

/-- On a record ending in the separator, when the callback succeeds and its
result does not already end in the separator, the AWK filter re-appends the
separator (and keeps the updated `NF` in the reader state). -/
theorem awkFn_reappend (split : List Nat → List (List Nat)) (cb : AWKCallback)
    (l res : List Nat) (v : AWKVars)
    (hl : l.getLast? = some v.RS)
    (hcb : cb (stripRS v.RS l) (split (stripRS v.RS l))
        { v with NF := (split (stripRS v.RS l)).length } = (res, none))
    (hres : res.getLast? ≠ some v.RS) :
    awkFn split cb l v =
      (res ++ [v.RS], none, { v with NF := (split (stripRS v.RS l)).length }) := by
  dsimp only [awkFn]
  rw [hcb]
  simp [hl, hres]

/-- C6 (counterexample): the round-trip half of the claim fails for a record
ending in two separator bytes.  `[97, 10, 10]` (`"a\n\n"`) ends in the
separator, yet the AWK adapter with the identity callback returns
`[97, 10]` — the adapter strips one trailing separator, the identity result
still ends in a separator, so nothing is re-appended.  The final conjunct
shows such a record reaching the adapter in a real pipeline (a `Map`
producing it ahead of `AWKMode`). -/
theorem c6_awk_roundtrip_counterexample :
    ([97, 10, 10] : List Nat).getLast? = some 10 ∧
      (awkFn splitWS (fun line _ _ => (line, none)) [97, 10, 10] ⟨0, 0, 10⟩).1
        = [97, 10] ∧
      (awkFn splitWS (fun line _ _ => (line, none)) [97, 10, 10] ⟨0, 0, 10⟩).1
        ≠ [97, 10, 10] ∧
      (readAllSlice (awkMode (map (newReader [120]) (fun _ => [97, 10, 10]))
          splitWS (fun line _ _ => (line, none)))).1 = ([[97, 10]], none) := by
  decide

/-- C6 (amended): if the original record ends in the separator byte and the
callback's replacement does not already end in the separator, the separator
is re-appended to the output; consequently, for every record ending in
exactly one trailing separator (its content with that byte removed does not
itself end in the separator), an identity callback round-trips the record
unchanged. -/
theorem c6_awk_separator_reappended :
    (∀ (split : List Nat → List (List Nat)) (cb : AWKCallback)
        (l res : List Nat) (v : AWKVars),
        l.getLast? = some v.RS →
        cb (stripRS v.RS l) (split (stripRS v.RS l))
            { v with NF := (split (stripRS v.RS l)).length } = (res, none) →
        res.getLast? ≠ some v.RS →
        (awkFn split cb l v).1 = res ++ [v.RS] ∧
          (awkFn split cb l v).2.1 = none) ∧
      (∀ (split : List Nat → List (List Nat)) (l : List Nat) (v : AWKVars),
        l.getLast? = some v.RS →
        l.dropLast.getLast? ≠ some v.RS →
        (awkFn split (fun line _ _ => (line, none)) l v).1 = l ∧
          (awkFn split (fun line _ _ => (line, none)) l v).2.1 = none) := by
  constructor
  · intro split cb l res v hl hcb hres
    rw [awkFn_reappend split cb l res v hl hcb hres]
    exact ⟨rfl, rfl⟩
  · intro split l v hl h2
    have hne : l ≠ [] := by
      intro h
      rw [h] at hl
      simp at hl
    have hstrip : stripRS v.RS l = l.dropLast := by
      rw [stripRS, if_pos hl]
    have hcb : (fun (line : List Nat) (_ : List (List Nat)) (_ : AWKVars) =>
        (line, (none : Option GoError))) (stripRS v.RS l) (split (stripRS v.RS l))
        { v with NF := (split (stripRS v.RS l)).length } = (stripRS v.RS l, none) := rfl
    have hres : (stripRS v.RS l).getLast? ≠ some v.RS := by
      rw [hstrip]
      exact h2
    rw [awkFn_reappend split _ l (stripRS v.RS l) v hl hcb hres]
    refine ⟨?_, rfl⟩
    show stripRS v.RS l ++ [v.RS] = l
    rw [hstrip]
    have hlast : l.getLast hne = v.RS := by
      have := List.getLast?_eq_getLast l hne
      rw [this] at hl
      exact Option.some.inj hl
    rw [← hlast]
    exact List.dropLast_concat_getLast hne

/-- C6 witness: both amended parts at concrete inputs — a callback replacing
`"a\n"`'s content with `[98]` gets the separator re-appended (`[98, 10]`),
and the identity callback round-trips `"a\n"`. -/
theorem c6_awk_separator_reappended_witness :
    ((awkFn splitWS (fun _ _ _ => ([98], none)) [97, 10] ⟨0, 0, 10⟩).1
        = [98] ++ [10]) ∧
      ((awkFn splitWS (fun line _ _ => (line, none)) [97, 10] ⟨0, 0, 10⟩).1
        = [97, 10]) :=
  ⟨(c6_awk_separator_reappended.1 splitWS (fun _ _ _ => ([98], none))
      [97, 10] [98] ⟨0, 0, 10⟩ rfl rfl (by decide)).1,
    (c6_awk_separator_reappended.2 splitWS [97, 10] ⟨0, 0, 10⟩ rfl (by decide)).1⟩

/-- Draining a chain consisting of the AWK filter with the probe callback
(which returns the `NR` it observes, followed by the separator) collects
`[n + 1, rs], [n + 2, rs], …` when started at `NR = n`: the callback
observes consecutive 1-based record numbers. -/
theorem readAllAux_awk_probe (split : List Nat → List (List Nat))
    (tokens : List (List Nat)) (rs n nf : Nat) :
    (readAllAux [awkFn split (fun _ _ w => ([w.NR, w.RS], none))] tokens
        ⟨n, nf, rs⟩).1
      = (tokens.enumFrom (n + 1)).map (fun it => [it.1, rs]) := by
  induction tokens generalizing n nf with
  | nil => rfl
  | cons t rest ih =>
    rw [readAllAux]
    dsimp only
    have hstep : applyFilters [awkFn split (fun _ _ w => ([w.NR, w.RS], none))] t
        ⟨n + 1, nf, rs⟩
        = ([n + 1, rs], none, ⟨n + 1, (split (stripRS rs t)).length, rs⟩) := by
      simp [applyFilters, awkFn]
    rw [hstep]
    simp only [List.enumFrom_cons, List.map_cons]
    simpa using ih (n + 1) ((split (stripRS rs t)).length)

/-- As `readAllAux_awk_probe`, with a predicate filter ahead of the AWK
filter: only records passing the predicate reach the callback, but the
record number the callback observes is still the token's position in the
stream — omitted records advance `NR` too. -/
theorem readAllAux_grep_awk_probe (split : List Nat → List (List Nat))
    (p : List Nat → Bool) (tokens : List (List Nat)) (rs n nf : Nat) :
    (readAllAux [grepFn p, awkFn split (fun _ _ w => ([w.NR, w.RS], none))] tokens
        ⟨n, nf, rs⟩).1
      = ((tokens.enumFrom (n + 1)).filter (fun it => p it.2)).map
          (fun it => [it.1, rs]) := by
  induction tokens generalizing n nf with
  | nil => rfl
  | cons t rest ih =>
    rw [readAllAux]
    dsimp only
    by_cases hp : p t
    · have hstep : applyFilters
          [grepFn p, awkFn split (fun _ _ w => ([w.NR, w.RS], none))] t
          ⟨n + 1, nf, rs⟩
          = ([n + 1, rs], none, ⟨n + 1, (split (stripRS rs t)).length, rs⟩) := by
        simp [applyFilters, grepFn, mapErrFn, awkFn, hp]
      rw [hstep]
      simp only [List.enumFrom_cons, List.filter_cons, hp]
      simpa [hp] using ih (n + 1) ((split (stripRS rs t)).length)
    · have hstep : applyFilters
          [grepFn p, awkFn split (fun _ _ w => ([w.NR, w.RS], none))] t
          ⟨n + 1, nf, rs⟩
          = (nullBytes, some GoError.omitLine, ⟨n + 1, nf, rs⟩) := by
        simp [applyFilters, grepFn, mapErrFn, hp]
      rw [hstep]
      simp only [List.enumFrom_cons, List.filter_cons, hp]
      simpa [hp] using ih (n + 1) nf

/-- C7: with the AWK adapter installed, the callback observes `NR = N` on the
Nth tokenized record: instrumenting the callback to emit the `NR` it is given
(`[w.NR, w.RS]`, separator-terminated so the adapter leaves it untouched),
the collected outputs over any tokenized input are exactly
`[1, rs], [2, rs], …` in order — 1-based, incremented once per record,
monotone, never reset.  With a predicate filter ahead of the adapter, a
surviving record at stream position N still reports `NR = N`: records omitted
earlier in the chain advance `NR` as well, because `Read` increments it
before the filter chain runs. -/
theorem c7_awk_record_number (split : List Nat → List (List Nat))
    (input : List Nat) (p : List Nat → Bool) (rs nf : Nat) :
    ((readAllAux [awkFn split (fun _ _ w => ([w.NR, w.RS], none))]
        (tokenize rs input) ⟨0, nf, rs⟩).1
      = ((tokenize rs input).enumFrom 1).map (fun it => [it.1, rs])) ∧
      ((readAllAux [grepFn p, awkFn split (fun _ _ w => ([w.NR, w.RS], none))]
          (tokenize rs input) ⟨0, nf, rs⟩).1
        = (((tokenize rs input).enumFrom 1).filter (fun it => p it.2)).map
            (fun it => [it.1, rs])) :=
  ⟨readAllAux_awk_probe split (tokenize rs input) rs 0 nf,
    readAllAux_grep_awk_probe split p (tokenize rs input) rs 0 nf⟩

/-- C8: filter functions receive records with the trailing separator byte
still attached: tokenization loses no byte (the tokens concatenate back to
the input), every token except possibly the last ends in the separator, and
concretely a `GrepString`-style predicate comparing against `"foo"` rejects
the separator-terminated record `"foo\n"` while keeping the unterminated
final record `"foo"`. -/
theorem c8_filters_receive_separator :
    (∀ rs l, (tokenize rs l).flatten = l) ∧
      (∀ rs l, ∀ t ∈ (tokenize rs l).dropLast, t.getLast? = some rs) ∧
      (readAllSliceString (grep (newReader (toBytes ("foo\nfoo")))
          (fun l => l == toBytes ("foo")))).1 = ([toBytes ("foo")], none) :=
  ⟨tokenize_join, tokenize_dropLast_getLast, by decide⟩

/-- C8 witness: in `"foo\nbar"` the non-final token `"foo\n"` carries its
separator. -/
theorem c8_filters_receive_separator_witness :
    (([102, 111, 111, 10] : List Nat) ∈
        (tokenize 10 (toBytes ("foo\nbar"))).dropLast) ∧
      ([102, 111, 111, 10] : List Nat).getLast? = some 10 :=
  ⟨by decide, c8_filters_receive_separator.2.1 10 (toBytes ("foo\nbar"))
      [102, 111, 111, 10] (by decide)⟩

/-- C9: the AWK filter stores the number of split fields in `NF` (the state
it passes to the callback and returns), the default field split never
produces zero fields — the empty stripped content splits into `[""]` — and
on the record `"\n"` a callback probing `NF` observes the value 1. -/
theorem c9_awk_field_count :
    (∀ (split : List Nat → List (List Nat)) (cb : AWKCallback) (l : List Nat)
        (v : AWKVars),
        ((awkFn split cb l v).2.2).NF = (split (stripRS v.RS l)).length) ∧
      (∀ l, 1 ≤ (splitWS l).length) ∧
      splitWS [] = [[]] ∧
      splitWS (stripRS 10 [10]) = [[]] ∧
      (awkFn splitWS (fun _ _ w => ([w.NF], none)) [10] ⟨0, 0, 10⟩).1 = [1, 10] ∧
      ((awkFn splitWS (fun _ _ w => ([w.NF], none)) [10] ⟨0, 0, 10⟩).2.2).NF = 1 := by
  refine ⟨?_, ?_, rfl, rfl, by decide, by decide⟩
  · intro split cb l v
    dsimp only [awkFn]
    rcases h : cb (stripRS v.RS l) (split (stripRS v.RS l))
        { v with NF := (split (stripRS v.RS l)).length } with ⟨res, e⟩
    cases e <;> rfl
  · intro l
    induction l with
    | nil => simp [splitWS]
    | cons b l ih =>
      by_cases hw : isWS b
      · cases l with
        | nil =>
          rw [splitWS.eq_def]
          simp [hw]
        | cons c l' =>
          rw [splitWS.eq_def]
          by_cases hc : isWS c
          · simpa [hw, hc] using ih
          · simp [hw, hc]
      · rw [splitWS.eq_def]
        cases hsp : splitWS l with
        | nil => simp [hw, hsp]
        | cons t ts => simp [hw, hsp]

/-- C10: `ReadAllSlice` and `ReadAllSliceString` append their collecting
filter to the chain and never remove it: afterwards the filter list is the
old list plus the collector (one element longer), and a subsequent read on
the same reader still runs through the collector — a record the original
chain passes cleanly comes out empty, swallowed by the collector. -/
theorem c10_collectors_persist (r : Reader) :
    ((readAllSlice r).2.filterFuncs = r.filterFuncs ++ [collectFn]) ∧
      ((readAllSlice r).2.filterFuncs.length = r.filterFuncs.length + 1) ∧
      ((readAllSliceString r).2.filterFuncs = r.filterFuncs ++ [collectStrFn]) ∧
      ((readAllSliceString r).2.filterFuncs.length = r.filterFuncs.length + 1) ∧
      (∀ (t : List Nat) (rest : List (List Nat)) (l' : List Nat)
          (v2 : AWKVars) (cap : Nat),
          (readAllSlice r).2.tokens = t :: rest →
          applyFilters r.filterFuncs t
              { (readAllSlice r).2.awkVars with
                NR := (readAllSlice r).2.awkVars.NR + 1 } = (l', none, v2) →
          (read (readAllSlice r).2 cap).1 = (0, [], none)) := by
  rcases hra : readAllAux r.filterFuncs r.tokens r.awkVars with ⟨acc, e, tl, vf⟩
  have hslice : readAllSlice r =
      ((acc, e), ⟨tl, r.filterFuncs ++ [collectFn], vf⟩) := by
    rw [readAllSlice, hra]
  have hstr : readAllSliceString r =
      ((acc, e), ⟨tl, r.filterFuncs ++ [collectStrFn], vf⟩) := by
    rw [readAllSliceString, hra]
  refine ⟨by rw [hslice], by rw [hslice]; simp, by rw [hstr], by rw [hstr]; simp, ?_⟩
  intro t rest l' v2 cap ht happ
  rw [hslice] at ht happ ⊢
  dsimp only at ht happ
  subst ht
  rw [read]
  dsimp only
  rw [applyFilters_append, happ]
  simp [applyFilters, collectFn, mapFn, mapErrFn, nullBytes]

/-- C10 witness: a chain whose filter hard-fails on the first record (so the
drain stops early, leaving a token), then succeeds on the next: after
`ReadAllSlice` the next pull returns the empty record — the collector
appended by `ReadAllSlice` is still in the chain and swallows the output. -/
theorem c10_collectors_persist_witness :
    (read (readAllSlice ⟨tokenize 10 [97, 10, 98],
        [mapErrFn (fun l =>
          if l == [97, 10] then (l, some (GoError.other 5)) else (l, none))],
        ⟨0, 0, 10⟩⟩).2 5).1 = (0, [], none) :=
  (c10_collectors_persist ⟨tokenize 10 [97, 10, 98],
      [mapErrFn (fun l =>
        if l == [97, 10] then (l, some (GoError.other 5)) else (l, none))],
      ⟨0, 0, 10⟩⟩).2.2.2.2 [98] [] [98] ⟨2, 0, 10⟩ 5 (by decide) (by decide)

end Byline
